import Mathlib

/-!
Verification of the generated-code execution engine of the `pandas-ai` fork.

The definitions below are a shallow embedding of the Python sources:

* `src/pandasai/pipelines/chat/code_execution.py` (class `CodeExecution`):
  the retry loop `execute`, the sandbox entry `execute_code`, the
  dataset-scoping helpers `_required_dfs` / `_get_originals`, and the
  predicate extraction machinery `_extract_filters` / `_extract_comparisons` /
  `_tokenize_operand` / `_get_df_id_by_nearest_assignment`.
* `src/pandasai/agent/base.py` (class `BaseAgent`): the security screen
  `check_malicious_keywords_in_query` and the gating portion of `chat`.
* `src/pandasai/helpers/pgcache.py` (class `Cache`): `set` and `get`.

Python strings become `String`, line numbers `Nat`, the `ast` node kinds the
engine inspects become a small closed inductive family, exceptions become an
inductive `Exc` carried in `Except`, and the external collaborators (the
`exec` evaluator, the repair callback, the policy evaluator, the Postgres
table behind the cache) become explicit function / list parameters.
-/

deriving instance DecidableEq for Except

/-! ## String helpers

Python `in`, `str.replace` and `str.split` on strings, implemented by
structural recursion over the character list so that every use reduces in
the kernel. -/

/-- Does `l` start with `p`?  (Helper for the substring test.) -/
def listStartsWith : List Char → List Char → Bool
  | [], _ => true
  | _ :: _, [] => false
  | p :: ps, c :: cs => p == c && listStartsWith ps cs

/-- Does `l` contain `pat` as a contiguous sublist? -/
def listHasSub (pat : List Char) : List Char → Bool
  | [] => listStartsWith pat []
  | c :: cs => listStartsWith pat (c :: cs) || listHasSub pat cs

/-- Python `pat in s` (substring containment). -/
def strContains (s pat : String) : Bool :=
  listHasSub pat.data s.data

/-- Strip `pat` from the front of `l`, returning the remainder on success. -/
def dropPre : List Char → List Char → Option (List Char)
  | [], l => some l
  | _ :: _, [] => none
  | p :: ps, c :: cs => if p == c then dropPre ps cs else none

/-- Fuelled worker for `strReplace`; the fuel is the input length, which
bounds the number of steps when the pattern is nonempty. -/
def replaceAllGo (pat repl : List Char) : Nat → List Char → List Char
  | _, [] => []
  | 0, l => l
  | fuel + 1, c :: cs =>
    match dropPre pat (c :: cs) with
    | some rest => repl ++ replaceAllGo pat repl fuel rest
    | none => c :: replaceAllGo pat repl fuel cs

/-- Python `s.replace(pat, repl)` for a nonempty pattern (left-to-right,
non-overlapping; every occurrence replaced).  The engine only replaces the
fixed nonempty marker `"### QUERY\n "`, so the empty-pattern case of the
Python builtin is irrelevant and mapped to the identity. -/
def strReplace (s pat repl : String) : String :=
  if pat.data.isEmpty then s
  else ⟨replaceAllGo pat.data repl.data s.data.length s.data⟩

/-- Split a character list at every occurrence of `sep`. -/
def splitCharList (sep : Char) : List Char → List (List Char)
  | [] => [[]]
  | c :: cs =>
    let r := splitCharList sep cs
    if c == sep then [] :: r
    else
      match r with
      | h :: t => (c :: h) :: t
      | [] => [[c]]

/-- Python `s.split("~")` (single-character separator). -/
def splitTilde (s : String) : List String :=
  (splitCharList '~' s.data).map (fun l => ⟨l⟩)

/-! ## The Python AST fragment inspected by the engine

`CodeExecution._extract_comparisons` only discriminates the node kinds
`Assign`, `Expr` (statement), `Compare`, `Subscript`, `Call`, `Name` and
`Constant`; everything else is skipped by its `isinstance` checks.  We embed
exactly that closed fragment.  A `Subscript` slice is restricted to a
constant (the code reads `node.slice.value`, which only exists on constant
slices — a non-constant slice raises `AttributeError` and is skipped by the
`except AttributeError: continue` in the original), and a `Call` function is
restricted to an attribute access, recorded by its attribute name (the code
only ever reads `call.func.attr`). -/

/-- A Python runtime value appearing as a `Name` id, an attribute name or a
`Constant`: the tokens produced by `_tokenize_operand`. -/
inductive PyVal where
  | s (v : String)
  | i (v : Int)
deriving DecidableEq, Repr

/-- The `ast.cmpop` kinds listed in `CodeExecution._ast_comparator_map`. -/
inductive CmpOp where
  | eq | ne | lt | le | gt | ge | isOp | isNotOp | inOp | notInOp
deriving DecidableEq, Repr

/-- `CodeExecution._ast_comparator_map`. -/
def cmpStr : CmpOp → String
  | .eq => "="
  | .ne => "!="
  | .lt => "<"
  | .le => "<="
  | .gt => ">"
  | .ge => ">="
  | .isOp => "is"
  | .isNotOp => "is not"
  | .inOp => "in"
  | .notInOp => "not in"

/-- Expressions of the inspected fragment.  `compare` carries its source
line number (`node.lineno` in the original). -/
inductive PyExpr where
  | name (id : String)
  | pconst (val : PyVal)
  | subscript (value : PyExpr) (sliceVal : PyVal)
  | callAttr (funcAttr : String) (args : List PyExpr)
  | compare (lineno : Nat) (left : PyExpr) (ops : List CmpOp)
      (comparators : List PyExpr)

/-- Statements: simple assignments and expression statements, each with its
source line number. -/
inductive PyStmt where
  | assign (lineno : Nat) (targets : List PyExpr) (value : PyExpr)
  | exprStmt (lineno : Nat) (value : PyExpr)

/-- A parsed module: its ordered statement list (`ast.Module.body`). -/
abbrev PyModule := List PyStmt

/-- `node.lineno` for statements. -/
def stmtLineno : PyStmt → Nat
  | .assign ln _ _ => ln
  | .exprStmt ln _ => ln

/-- A node handed out by `ast.walk`: the module itself, a statement, or an
expression. -/
inductive PyNode where
  | module (body : PyModule)
  | stmt (s : PyStmt)
  | expr (e : PyExpr)

/-- The children enumerated by `ast.iter_child_nodes`, in field order.
Leaf nodes of the original that can contain no `Compare` (constant slices,
`cmpop` nodes, the attribute node of a call) are omitted; they never affect
the extraction result nor the relative breadth-first order of the remaining
nodes, since they are childless. -/
def nchildren : PyNode → List PyNode
  | .module body => body.map .stmt
  | .stmt (.assign _ targets value) => targets.map .expr ++ [.expr value]
  | .stmt (.exprStmt _ value) => [.expr value]
  | .expr (.name _) => []
  | .expr (.pconst _) => []
  | .expr (.subscript v _) => [.expr v]
  | .expr (.callAttr _ args) => args.map .expr
  | .expr (.compare _ l _ comps) => .expr l :: comps.map .expr

mutual

/-- Node count of an expression (every node weighs one). -/
def exprSize : PyExpr → Nat
  | .name _ => 1
  | .pconst _ => 1
  | .subscript v _ => exprSize v + 1
  | .callAttr _ args => exprListSize args + 1
  | .compare _ l _ comps => exprSize l + exprListSize comps + 1

/-- Node count of an expression list. -/
def exprListSize : List PyExpr → Nat
  | [] => 0
  | e :: es => exprSize e + exprListSize es

end

/-- Node count of a statement. -/
def stmtSize : PyStmt → Nat
  | .assign _ targets value => exprListSize targets + exprSize value + 1
  | .exprStmt _ value => exprSize value + 1

/-- Node count of a statement list. -/
def stmtListSize : List PyStmt → Nat
  | [] => 0
  | s :: ss => stmtSize s + stmtListSize ss

/-- Node count of a walk node. -/
def nsize : PyNode → Nat
  | .module body => stmtListSize body + 1
  | .stmt s => stmtSize s
  | .expr e => exprSize e

/-- Total node count of a queue of walk nodes. -/
def lsize : List PyNode → Nat
  | [] => 0
  | n :: q => nsize n + lsize q

/-- Fuelled breadth-first traversal: `ast.walk` maintains a FIFO queue,
yields the head and enqueues its children.  `lsize q` fuel always
suffices (`walkFuel_eq_of_fuel`). -/
def walkFuel : Nat → List PyNode → List PyNode
  | _, [] => []
  | 0, q => q
  | fuel + 1, n :: q => n :: walkFuel fuel (q ++ nchildren n)

/-- `ast.walk(module)`, as the list of visited nodes in visit order. -/
def walkNodes (m : PyModule) : List PyNode :=
  walkFuel (lsize [PyNode.module m]) [PyNode.module m]

/-! ## `CodeExecution._tokenize_operand` -/

/-- `CodeExecution._tokenize_operand`: a call yields its function attribute
name, a subscript yields the tokens of its base followed by the slice
constant, a name yields its id, a constant yields its value; any other node
(in this fragment, a comparison) yields nothing. -/
def tokenize : PyExpr → List PyVal
  | .callAttr funcAttr _ => [.s funcAttr]
  | .subscript value sliceVal => tokenize value ++ [sliceVal]
  | .name id => [.s id]
  | .pconst val => [val]
  | .compare _ _ _ _ => []

/-! ## `CodeExecution._get_df_id_by_nearest_assignment`

The helper sorts the collected assignment nodes by line number, scans them
in order, remembers the latest one of shape `name = dfs[<const>]` assigning
to the target name, and returns the remembered label as soon as it meets an
assignment on a later line than the comparison.  When the scan runs off the
end of the list the Python function falls off its `for` loop with no
`return` statement, so it returns `None` — it does NOT return the
remembered `nearest_assignment` (its docstring says it should; see the C4
theorem below). -/

/-- Python `f"dfs[{v}]"` for the slice constant. -/
def renderVal : PyVal → String
  | .s v => v
  | .i n => toString n

/-- Does the statement match `target = dfs[<const>]`?  Mirrors the guarded
attribute accesses of the original: `assignment.value` must be a subscript
whose base is the name `dfs` and whose slice is a constant, and the first
assignment target must be a plain name equal to `targetName`; every other
shape raises `AttributeError` in the original and is skipped. -/
def dfsAssignSlice (st : PyStmt) (targetName : PyVal) : Option PyVal :=
  match st with
  | .assign _ (PyExpr.name t :: _) (PyExpr.subscript (PyExpr.name base) sl) =>
    if base == "dfs" && PyVal.s t == targetName then some sl else none
  | _ => none

/-- Stable insertion by line number (Python `sorted` is stable). -/
def insertByLineno (st : PyStmt) : List PyStmt → List PyStmt
  | [] => [st]
  | x :: xs =>
    if stmtLineno st ≤ stmtLineno x then st :: x :: xs
    else x :: insertByLineno st xs

/-- `sorted(assignments, key=lambda node: node.lineno)`. -/
def sortByLineno : List PyStmt → List PyStmt
  | [] => []
  | x :: xs => insertByLineno x (sortByLineno xs)

/-- The scan loop of `_get_df_id_by_nearest_assignment`.  The `[]` case is
the Python fall-through: the accumulated `nearest_assignment` is dropped
and `None` is returned implicitly. -/
def nearestGo (currentLineno : Nat) (targetName : PyVal) :
    List PyStmt → Option String → Option String
  | [], _acc => none
  | st :: rest, acc =>
    if currentLineno < stmtLineno st then acc
    else
      match dfsAssignSlice st targetName with
      | some sl =>
        nearestGo currentLineno targetName rest
          (some ("dfs[" ++ renderVal sl ++ "]"))
      | none => nearestGo currentLineno targetName rest acc

/-- `CodeExecution._get_df_id_by_nearest_assignment`. -/
def getDfIdByNearestAssignment (currentLineno : Nat)
    (assignments : List PyStmt) (targetName : PyVal) : Option String :=
  nearestGo currentLineno targetName (sortByLineno assignments) none

/-- The same scan but returning the accumulated label at the end of the
list, as the specification (and the docstring of the original) describe:
the most recent assignment `name = dfs[i]` on a line `≤ currentLineno`
wins.  Used only to compare the code against the specified behaviour. -/
def specNearestGo (currentLineno : Nat) (targetName : PyVal) :
    List PyStmt → Option String → Option String
  | [], acc => acc
  | st :: rest, acc =>
    if currentLineno < stmtLineno st then acc
    else
      match dfsAssignSlice st targetName with
      | some sl =>
        specNearestGo currentLineno targetName rest
          (some ("dfs[" ++ renderVal sl ++ "]"))
      | none => specNearestGo currentLineno targetName rest acc

/-- Specification-side nearest-assignment attribution (most recent
preceding `name = dfs[i]` wins). -/
def specNearestAssignment (currentLineno : Nat)
    (assignments : List PyStmt) (targetName : PyVal) : Option String :=
  specNearestGo currentLineno targetName (sortByLineno assignments) none

/-! ## `CodeExecution._extract_comparisons` -/

/-- One extracted filter: `(left operand, operator, right operand)`. -/
abbrev Pred := PyVal × String × PyVal

/-- `defaultdict(list)` keyed by the `"dfs[i]"` label: append `p` to the
list at `key`, creating the entry at the back on first touch (Python dicts
preserve insertion order). -/
def appendPred (acc : List (String × List Pred)) (key : String) (p : Pred) :
    List (String × List Pred) :=
  match acc with
  | [] => [(key, [p])]
  | (k, ps) :: rest =>
    if k == key then (k, ps ++ [p]) :: rest
    else (k, ps) :: appendPred rest key p

/-- First token of a tokenization (`name, *slices = ...`); the default is
never reached on the operands the extractor unpacks. -/
def headTokD (l : List PyVal) : PyVal :=
  l.headD (.s "")

/-- `slices[-1] if slices else name` for the right operand of one
comparison pair. -/
def rightStrOf (e : PyExpr) : PyVal :=
  match tokenize e with
  | [] => .s ""
  | t :: ts => ts.getLast?.getD t

/-- The inner loop `for op, right in zip(node.ops, node.comparators, ...)`:
append one predicate per pair at the slot `cur`.  Unpacking
`name, *slices = self._tokenize_operand(right)` on an empty tokenization
(the right operand is itself a comparison) raises `ValueError` in Python;
that is the `.error` case, which aborts the whole extraction. -/
def addPairs (cur : String) (leftStr : PyVal) :
    List (CmpOp × PyExpr) → List (String × List Pred) →
    Except Unit (List (String × List Pred))
  | [], acc => .ok acc
  | (op, right) :: rest, acc =>
    match tokenize right with
    | [] => .error ()
    | t :: ts =>
      addPairs cur leftStr rest
        (appendPred acc cur (leftStr, cmpStr op, ts.getLast?.getD t))

/-- The mutable state of `_extract_comparisons`: the accumulated mapping
and the `current_df` label (initially `"dfs[0]"`). -/
structure ExtSt where
  acc : List (String × List Pred)
  cur : String

/-- Handle one walked node: a comparison whose left side is a subscript
updates `current_df` via the nearest-assignment helper (keeping the old
value when that helper returns `None`) and appends one predicate per
`(op, comparator)` pair; every other node is skipped. -/
def extractStep (assignments : List PyStmt) (st : ExtSt) (n : PyNode) :
    Except Unit ExtSt :=
  match n with
  | .expr (.compare lineno (PyExpr.subscript lv sl) ops comps) =>
    match tokenize (PyExpr.subscript lv sl) with
    | [] => .ok st
    | t :: ts =>
      let cur := (getDfIdByNearestAssignment lineno assignments t).getD st.cur
      let leftStr := ts.getLast?.getD t
      match addPairs cur leftStr (ops.zip comps) st.acc with
      | .error e => .error e
      | .ok acc => .ok ⟨acc, cur⟩
  | _ => .ok st

/-- Fold `extractStep` over the walked node list. -/
def extractFold (assignments : List PyStmt) :
    List PyNode → ExtSt → Except Unit ExtSt
  | [], st => .ok st
  | n :: ns, st =>
    match extractStep assignments st n with
    | .error e => .error e
    | .ok st' => extractFold assignments ns st'

/-- Modelled from the spec: `AssignmentVisitor`
(`helpers/node_visitors.py`, not among the sources) collects all
simple-assignment nodes of the tree in a single traversal, ordered by
source position (spec section 4.1).  Statements cannot nest in this
fragment, so these are the module's assign statements in order. -/
def moduleAssignments (m : PyModule) : List PyStmt :=
  m.filter fun st =>
    match st with
    | .assign _ _ _ => true
    | .exprStmt _ _ => false

/-- `CodeExecution._extract_comparisons`: walk the tree breadth-first and
process every comparison node whose left side is a subscript. -/
def extractComparisons (m : PyModule) :
    Except Unit (List (String × List Pred)) :=
  match extractFold (moduleAssignments m) (walkNodes m) ⟨[], "dfs[0]"⟩ with
  | .error e => .error e
  | .ok st => .ok st.acc

/-! ## Exceptions, results, and the output validator -/

/-- The exceptions the engine raises or routes into the retry loop. -/
inductive Exc where
  /-- The synthesized grouping error of `CodeExecution.execute`, carrying
  the candidate categorical column names found in the snippet. -/
  | groupingMissing (cols : List String)
  /-- Python `SyntaxError` from `ast.parse` — the parse-failure error
  (called `MalformedSnippetError` in the behavioural description). -/
  | syntaxError
  | invalidLLMOutputType
  /-- `InvalidOutputValueMismatch`, naming the observed value type and the
  declared type tag. -/
  | invalidOutputValueMismatch (valueType : String) (tag : String)
  | noResultFound
  | maliciousQuery (msg : String)
  /-- Any other runtime exception from evaluating a snippet. -/
  | generic (n : Nat)
deriving DecidableEq, Repr

/-- The runtime shape of a result value. -/
inductive PyShape where
  | num (n : Int)
  | str (s : String)
  | table (rows cols : Nat)
  | plotRef (path : String)
deriving DecidableEq, Repr

/-- Python `type(value)` rendering used in the mismatch message. -/
def shapeName : PyShape → String
  | .num _ => "int"
  | .str _ => "str"
  | .table _ _ => "DataFrame"
  | .plotRef _ => "str"

/-- The execution result dict: `{"type": ..., "value": ...}`. -/
structure ExecResult where
  type_ : String
  value : PyShape
deriving DecidableEq, Repr

/-- Modelled from the spec: `OutputValidator.validate_result` (the helper
module is not part of the sources).  Section 4.5(2): independent of any
hint, the internal value must be shape-consistent with the declared type
tag — a numeric tag needs a scalar number, a string tag a string, a
dataframe tag two-dimensional data, a plot tag a file reference. -/
def validate_result (r : ExecResult) : Bool :=
  match r.type_, r.value with
  | "number", .num _ => true
  | "string", .str _ => true
  | "dataframe", .table _ _ => true
  | "plot", .plotRef _ => true
  | _, _ => false

/-- Modelled from the spec: `OutputValidator.validate` against the expected
output-type hint (the helper module is not part of the sources).  Section
4.5(1): a numeric hint requires a numeric tag, `"dataframe"` a tabular tag,
`"plot"` a plot tag, `"string"` (or an unknown hint) accepts anything. -/
def validateHint (hint : String) (r : ExecResult) : Bool :=
  match hint with
  | "number" => r.type_ == "number"
  | "dataframe" => r.type_ == "dataframe"
  | "plot" => r.type_ == "plot"
  | _ => true

/-! ## Dataset handles, `_required_dfs`, `_get_originals`, `execute_code` -/

/-- A connector handle: an identity plus its schema, each column tagged with
whether its dtype is `object` (categorical). -/
structure Df where
  id : Nat
  cols : List (String × Bool)
deriving DecidableEq, Repr

/-- A materialized dataframe: the handle together with the filter
predicates that were applied before `df.execute()`. -/
abbrev MatDf := Df × List Pred

instance : DecidableEq (Option MatDf) :=
  inferInstance

instance : DecidableEq (List (Option MatDf)) :=
  inferInstance

instance : DecidableEq (Except Exc (List (Option MatDf))) :=
  inferInstance

/-- A generated snippet: its raw text together with its parse result
(`none` when `ast.parse` would raise `SyntaxError`). -/
structure Snippet where
  text : String
  tree : Option PyModule

/-- `"for df in dfs" in code or "pd.concat(dfs" in code`. -/
def hasAllDfsIdiom (code : String) : Bool :=
  strContains code "for df in dfs" || strContains code "pd.concat(dfs"

/-- The indexed scan of `_required_dfs`: slot `i` keeps its handle exactly
when the token `dfs[i]` occurs in the snippet text. -/
def requiredGo (code : String) : Nat → List Df → List (Option Df)
  | _, [] => []
  | i, df :: rest =>
    (if strContains code ("dfs[" ++ toString i ++ "]") then some df else none)
      :: requiredGo code (i + 1) rest

/-- `CodeExecution._required_dfs`. -/
def requiredDfs (code : String) (dfs : List Df) : List (Option Df) :=
  if hasAllDfsIdiom code then dfs.map some
  else
    let r := requiredGo code 0 dfs
    if r.isEmpty then dfs.map some else r

/-- `CodeExecution._extract_filters` applied to the stage's
`_current_code_executed`: a parse failure is re-raised (`SyntaxError`),
while any error inside `_extract_comparisons` is swallowed and degrades to
the empty mapping. -/
def extractFilters (parsed : Option PyModule) :
    Except Exc (List (String × List Pred)) :=
  match parsed with
  | none => .error .syntaxError
  | some m =>
    match extractComparisons m with
    | .error _ => .ok []
    | .ok fs => .ok fs

/-- `extracted_filters.get(f"dfs[{index}]", [])`. -/
def lookupFilters (fs : List (String × List Pred)) (key : String) :
    List Pred :=
  match fs.find? (fun kv => kv.1 == key) with
  | some kv => kv.2
  | none => []

/-- The loop body of `_get_originals`, also recording (second component)
the slot indices on which `df.execute()` ran, in order.  For each
non-null slot the filters are re-extracted from the stage's
`_current_code_executed` (parameter `current`), applied via
`set_additional_filters`, and the connector is executed. -/
def getOriginalsGo (current : Option PyModule) :
    Nat → List (Option Df) → Except Exc (List (Option MatDf)) × List Nat
  | _, [] => (.ok [], [])
  | index, none :: rest =>
    match getOriginalsGo current (index + 1) rest with
    | (.error e, log) => (.error e, log)
    | (.ok mats, log) => (.ok (none :: mats), log)
  | index, some df :: rest =>
    match extractFilters current with
    | .error e => (.error e, [])
    | .ok fs =>
      match getOriginalsGo current (index + 1) rest with
      | (.error e, log) => (.error e, index :: log)
      | (.ok mats, log) =>
        (.ok (some (df, lookupFilters fs ("dfs[" ++ toString index ++ "]"))
          :: mats), index :: log)

/-- `CodeExecution._get_originals`. -/
def getOriginals (current : Option PyModule) (dfs : List (Option Df)) :
    Except Exc (List (Option MatDf)) × List Nat :=
  getOriginalsGo current 0 dfs

/-- The environment-building half of `CodeExecution.execute_code`: choose
the required slots from the snippet text, then materialize them with the
filters extracted from `current` (the stage's `_current_code_executed`). -/
def executeCodeEnv (current : Snippet) (dfs : List Df) (code : Snippet) :
    Except Exc (List (Option MatDf)) × List Nat :=
  getOriginals current.tree (requiredDfs code.text dfs)

/-- `CodeExecution.execute_code`: materialize, then hand the snippet text
and the fully materialized dataset list to the evaluator (`exec` plus the
result lookup, whitelisted environment, skills and direct-SQL hook are
abstracted into `evalS`). -/
def executeCode (current : Snippet) (dfs : List Df)
    (evalS : String → List (Option MatDf) → Except Exc ExecResult)
    (code : Snippet) : Except Exc ExecResult × List Nat :=
  match executeCodeEnv current dfs code with
  | (.error e, log) => (.error e, log)
  | (.ok mats, log) => (evalS code.text mats, log)

/-! ## The retry loop `CodeExecution.execute` -/

/-- The configuration fields the stage consumes. -/
structure Config where
  max_retries : Nat
  use_error_correction_framework : Bool
deriving DecidableEq, Repr

/-- The categorical columns listed in the synthesized grouping error:
object-dtype columns whose quoted name occurs in the snippet text. -/
def groupingCols (codeText : String) (dfs : List Df) : List String :=
  dfs.flatMap fun df =>
    (df.cols.filter fun c =>
      c.2 && strContains codeText ("\x27" ++ c.1 ++ "\x27")).map (·.1)

/-- One iteration of the `try` block of `CodeExecution.execute`: the
grouping screen, then `execute_code` (abstracted as `execC`), then the two
output-validator checks. -/
def attempt (enforceGrouping : Bool) (dfs : List Df)
    (execC : Snippet → Except Exc ExecResult) (outputType : String)
    (code : Snippet) : Except Exc ExecResult :=
  if enforceGrouping && !strContains code.text ".groupby" then
    .error (.groupingMissing (groupingCols code.text dfs))
  else
    match execC code with
    | .error e => .error e
    | .ok result =>
      if outputType != "" && !validateHint outputType result then
        .error .invalidLLMOutputType
      else if !validate_result result then
        .error (.invalidOutputValueMismatch (shapeName result.value)
          result.type_)
      else .ok result

/-- The `while retry_count <= max_retries` loop, with `k` the number of
retries still allowed (`max_retries - retry_count`).  The second component
counts the attempts made.  On failure: if the correction framework is off
or the budget is exhausted the exception is re-raised as caught; otherwise
`_retry_run_code` either invokes the repair callback `on_retry` for a
replacement snippet or, when no callback was supplied, re-raises the
exception.  The `on_failure` notification hook is observability only and
never alters control flow, so it is not modelled. -/
def execLoop (att : Snippet → Except Exc ExecResult) (ucf : Bool)
    (onRetry : Option (Snippet → Exc → Snippet)) :
    Nat → Snippet → Except Exc ExecResult × Nat
  | 0, code =>
    match att code with
    | .ok r => (.ok r, 1)
    | .error e => (.error e, 1)
  | k + 1, code =>
    match att code with
    | .ok r => (.ok r, 1)
    | .error e =>
      if ucf then
        match onRetry with
        | none => (.error e, 1)
        | some f =>
          let p := execLoop att ucf onRetry k (f code e)
          (p.1, p.2 + 1)
      else (.error e, 1)

/-- `CodeExecution.execute`: run the loop from a full retry budget. -/
def CodeExecution.execute (cfg : Config) (enforceGrouping : Bool)
    (dfs : List Df) (execC : Snippet → Except Exc ExecResult)
    (outputType : String) (onRetry : Option (Snippet → Exc → Snippet))
    (input : Snippet) : Except Exc ExecResult × Nat :=
  execLoop (attempt enforceGrouping dfs execC outputType)
    cfg.use_error_correction_framework onRetry cfg.max_retries input

/-! ## The security screen and the gating portion of `BaseAgent.chat` -/

/-- The denylist of `BaseAgent.check_malicious_keywords_in_query`. -/
def dangerousModules : List String :=
  [" os", " io", ".os", ".io", "\x27os\x27", "\x27io\x27",
   "\x22os\x22", "\x22io\x22", "chr(", "chr)", "chr ", "(chr", "b64decode"]

/-- `BaseAgent.check_malicious_keywords_in_query`. -/
def checkMaliciousKeywordsInQuery (query : String) : Bool :=
  dangerousModules.any fun m => strContains query m

/-- The message raised when the keyword screen trips. -/
def maliciousKeywordsMsg : String :=
  "The query contains references to io or os modules or b64decode method " ++
  "which can be used to execute or access system resources in unsafe ways."

/-- The message raised when the policy evaluator flags the query. -/
def maliciousPolicyMsg : String :=
  "Query can result in a malicious code"

/-- The body of `BaseAgent.chat` from the security gates onward: either
gate raises `MaliciousQueryError` before `self.pipeline.run` is invoked.
The second component records whether the pipeline (which contains code
generation and the retry-correction loop) ran at all.  The outermost
`except` of `chat`, which stringifies any exception, is outside the
engine core and not modelled. -/
def chatGate (security : Option (String → Bool))
    (pipelineRun : String → Except Exc ExecResult) (query : String) :
    Except Exc ExecResult × Bool :=
  if checkMaliciousKeywordsInQuery query then
    (.error (.maliciousQuery maliciousKeywordsMsg), false)
  else
    match security with
    | some ev =>
      if ev query then (.error (.maliciousQuery maliciousPolicyMsg), false)
      else (pipelineRun query, true)
    | none => (pipelineRun query, true)

/-! ## The cache (`pandasai/helpers/pgcache.py`) -/

/-- One row of the external `promptmaster` table: the three key components,
the stored snippet, and whether `bad_code` is SQL `NULL`. -/
structure PgRow where
  data_source : String
  dataframe_hash : String
  normalized_question : String
  code_executed : String
  bad_code_is_null : Bool
deriving DecidableEq, Repr

/-- The `WHERE` clause of `Cache.get`. -/
def rowMatch (p0 p1 question : String) (r : PgRow) : Bool :=
  r.data_source == p0 && r.dataframe_hash == p1 &&
    r.normalized_question == question && r.bad_code_is_null

/-- The marker stripped from the question component of the key. -/
def queryMarker : String := "### QUERY\n "

/-- `Cache.set`: the entire body is commented out (`pass`), so the backing
store is returned unchanged — nothing is ever written. -/
def Cache.set (tbl : List PgRow) (_key _value : String) : List PgRow :=
  tbl

/-- `Cache.get`: split the key on `"~"`, strip the query marker from the
third component, and return the `code_executed` of the first `promptmaster`
row matching the three components with `bad_code` null.  (A key with fewer
than three components makes the original raise `IndexError`; such keys are
never produced by `get_cache_key` and are mapped to `none` here.) -/
def Cache.get (tbl : List PgRow) (key : String) : Option String :=
  match splitTilde key with
  | p0 :: p1 :: p2 :: _ =>
    (tbl.find? (rowMatch p0 p1 (strReplace p2 queryMarker ""))).map
      (fun r => r.code_executed)
  | _ => none

/-! ## Counting and description helpers for the predicate extractor

These do not model new source code; they give a walk-independent count of
the `(operator, comparator)` pairs in a tree and a direct description of
the predicates one walked node contributes, used to state properties of
`extractComparisons`. -/

/-- The pairs contributed by one walked node itself (its nested
comparisons are counted when the walk reaches them). -/
def nodeSelfPairs : PyNode → Nat
  | .expr (.compare _ _ ops comps) => (ops.zip comps).length
  | _ => 0

mutual

/-- Total `(operator, comparator)` pair count of all comparisons nested
anywhere in an expression. -/
def exprPairCount : PyExpr → Nat
  | .name _ => 0
  | .pconst _ => 0
  | .subscript v _ => exprPairCount v
  | .callAttr _ args => exprListPairCount args
  | .compare _ l ops comps =>
    (ops.zip comps).length + exprPairCount l + exprListPairCount comps

/-- Pair count of an expression list. -/
def exprListPairCount : List PyExpr → Nat
  | [] => 0
  | e :: es => exprPairCount e + exprListPairCount es

end

/-- Pair count of a statement. -/
def stmtPairCount : PyStmt → Nat
  | .assign _ targets value => exprListPairCount targets + exprPairCount value
  | .exprStmt _ value => exprPairCount value

/-- Pair count of a statement list. -/
def stmtListPairCount : List PyStmt → Nat
  | [] => 0
  | s :: ss => stmtPairCount s + stmtListPairCount ss

/-- `N`: the total number of `(operator, right-operand)` predicate pairs in
the comparisons of a module, counted on the tree (a chained comparison
contributes one pair per operator). -/
def modulePairCount (m : PyModule) : Nat :=
  stmtListPairCount m

/-- Pair count of the whole subtree below a walk node. -/
def subtreePairs : PyNode → Nat
  | .module body => stmtListPairCount body
  | .stmt s => stmtPairCount s
  | .expr e => exprPairCount e

/-- Sum of `nodeSelfPairs` over a node list. -/
def lSelf : List PyNode → Nat
  | [] => 0
  | n :: q => nodeSelfPairs n + lSelf q

/-- Sum of `subtreePairs` over a node list. -/
def lSubtree : List PyNode → Nat
  | [] => 0
  | n :: q => subtreePairs n + lSubtree q

/-- The predicate triples produced for one comparison: left token, operator
symbol, right token, one per `(op, comparator)` pair. -/
def pairPreds (leftStr : PyVal) (pairs : List (CmpOp × PyExpr)) :
    List Pred :=
  pairs.map fun pr => (leftStr, cmpStr pr.1, rightStrOf pr.2)

/-- The predicates one walked node contributes to the extraction: a
comparison with a subscript left side yields one
`(left, operator, right)` triple per `(op, comparator)` pair. -/
def predsOfNode : PyNode → List Pred
  | .expr (.compare _ (PyExpr.subscript lv sl) ops comps) =>
    match tokenize (PyExpr.subscript lv sl) with
    | [] => []
    | t :: ts => pairPreds (ts.getLast?.getD t) (ops.zip comps)
  | _ => []

/-- Concatenated predicates of a node list, in list order. -/
def predsFlat : List PyNode → List Pred
  | [] => []
  | n :: ns => predsOfNode n ++ predsFlat ns

/-- The single-slot side conditions on one walked node, relative to slot
label `s`: every comparison has a subscript left side, every zipped right
operand tokenizes to something nonempty, and the nearest-assignment lookup
for its base name yields `s` (or yields `None` while `s` is the initial
default label `dfs[0]`). -/
def compareHypB (assignments : List PyStmt) (s : String) (n : PyNode) :
    Bool :=
  match n with
  | .expr (.compare lineno (PyExpr.subscript lv sl) ops comps) =>
    (ops.zip comps).all (fun pr => !(tokenize pr.2).isEmpty) &&
    (match getDfIdByNearestAssignment lineno assignments
        (headTokD (tokenize (PyExpr.subscript lv sl))) with
     | some d => d == s
     | none => s == "dfs[0]")
  | .expr (.compare _ _ _ _) => false
  | _ => true

/-! ## Concrete snippets used in the claims analysis -/

/-- `my_df = dfs[1]` on line 1 followed by a comparison on the bound name
on line 2 — the nearest preceding assignment binds the base name to slot 1
and no assignment follows the comparison. -/
def c4Module : PyModule :=
  [.assign 1 [.name "my_df"] (.subscript (.name "dfs") (.i 1)),
   .assign 2 [.name "x"]
     (.compare 2 (.subscript (.name "my_df") (.s "col")) [.gt]
       [.pconst (.i 5)])]

/-- The same snippet with an unrelated assignment `z = 1` appended on
line 3, after the comparison. -/
def c4ModuleLater : PyModule :=
  c4Module ++ [.assign 3 [.name "z"] (.pconst (.i 1))]

/-- Line 1 nests its comparison `a[0] > 1` inside a call argument; line 2
has its comparison `b[0] < 2` directly as the assigned value.  The
breadth-first walk reaches the line-2 comparison first. -/
def c5Module : PyModule :=
  [.assign 1 [.name "x"]
     (.callAttr "apply"
       [.compare 1 (.subscript (.name "a") (.i 0)) [.gt] [.pconst (.i 1)]]),
   .assign 2 [.name "y"]
     (.compare 2 (.subscript (.name "b") (.i 0)) [.lt] [.pconst (.i 2)])]

/-- A single-statement snippet with one comparison `dfs[0] > 2`. -/
def c5FlatModule : PyModule :=
  [.exprStmt 1
    (.compare 1 (.subscript (.name "dfs") (.i 0)) [.gt] [.pconst (.i 2)])]

/-- The snippet recorded as `_current_code_executed`: text and parse tree
of `dfs[0] > 2`. -/
def c9SnippetCurrent : Snippet :=
  ⟨"dfs[0] > 2",
   some [.exprStmt 1
     (.compare 1 (.subscript (.name "dfs") (.i 0)) [.gt] [.pconst (.i 2)])]⟩

/-- A corrected snippet produced by the repair callback on a retry: text
and parse tree of `dfs[0] < 9`. -/
def c9SnippetRetry : Snippet :=
  ⟨"dfs[0] < 9",
   some [.exprStmt 1
     (.compare 1 (.subscript (.name "dfs") (.i 0)) [.lt] [.pconst (.i 9)])]⟩

/-- A two-column dataset handle. -/
def dfLoans : Df :=
  ⟨0, [("loan_status", true), ("age", false)]⟩

/-- A second dataset handle. -/
def dfPayments : Df :=
  ⟨1, [("amount", false)]⟩

/-- A stub evaluator returning a numeric result. -/
def evalNum : String → List (Option MatDf) → Except Exc ExecResult :=
  fun _ _ => .ok ⟨"number", .num 1⟩

/-- The materialized list produced for `c9SnippetRetry` under
`c9SnippetCurrent`: slot 0 filtered by the predicate of the CURRENT
snippet. -/
def c9Mats : List (Option MatDf) :=
  [some (dfLoans, [(PyVal.i 0, ">", PyVal.i 2)])]

/-- An unparseable snippet (`ast.parse` raises `SyntaxError`) whose text
still mentions `dfs[0]`. -/
def c7Snippet : Snippet :=
  ⟨"dfs[0] >", none⟩

/-! ## Basic lemmas about sizes and the walk -/

theorem lsize_append (a b : List PyNode) :
    lsize (a ++ b) = lsize a + lsize b := by
  induction a with
  | nil => simp only [List.nil_append, lsize]; omega
  | cons n q ih => simp only [List.cons_append, lsize, List.append_eq, ih]; omega

theorem lsize_map_expr (l : List PyExpr) :
    lsize (l.map PyNode.expr) = exprListSize l := by
  induction l with
  | nil => rfl
  | cons e es ih => simp only [List.map_cons, lsize, exprListSize, nsize, ih]

theorem lsize_map_stmt (l : List PyStmt) :
    lsize (l.map PyNode.stmt) = stmtListSize l := by
  induction l with
  | nil => rfl
  | cons s ss ih => simp only [List.map_cons, lsize, stmtListSize, nsize, ih]

theorem exprSize_pos (e : PyExpr) : 1 ≤ exprSize e := by
  cases e <;> simp only [exprSize] <;> omega

theorem nsize_pos (n : PyNode) : 1 ≤ nsize n := by
  cases n with
  | module body => simp only [nsize]; omega
  | stmt s => cases s <;> simp only [nsize, stmtSize] <;> omega
  | expr e => exact exprSize_pos e

/-- The children of a node are strictly smaller than the node. -/
theorem nchildren_lsize (n : PyNode) : lsize (nchildren n) + 1 ≤ nsize n := by
  cases n with
  | module body => simp only [nchildren, nsize, lsize_map_stmt]; omega
  | stmt s =>
    cases s with
    | assign ln targets value =>
      simp only [nchildren, nsize, stmtSize, lsize_append, lsize_map_expr,
        lsize]
      omega
    | exprStmt ln value =>
      simp only [nchildren, nsize, stmtSize, lsize]
      omega
  | expr e =>
    cases e with
    | name _ => simp only [nchildren, nsize, lsize, exprSize]; omega
    | pconst _ => simp only [nchildren, nsize, lsize, exprSize]; omega
    | subscript v sl => simp only [nchildren, nsize, lsize, exprSize]; omega
    | callAttr f args =>
      simp only [nchildren, nsize, lsize, exprSize, lsize_map_expr]
      omega
    | compare ln l ops comps =>
      simp only [nchildren, nsize, lsize, exprSize, lsize_map_expr]
      omega

theorem tokenize_subscript_ne_nil (v : PyExpr) (sl : PyVal) :
    tokenize (PyExpr.subscript v sl) ≠ [] := by
  simp [tokenize]

/-! ## The retry loop: claims C1, C2, C8 -/

/-- With the correction framework on, a repair callback supplied, and every
attempt failing, the loop makes `k + 1` attempts and re-raises an
attempt-produced exception unchanged. -/
theorem execLoop_exhaust (att : Snippet → Except Exc ExecResult)
    (f : Snippet → Exc → Snippet)
    (hfail : ∀ c, ∃ e, att c = Except.error e) :
    ∀ (k : Nat) (code : Snippet),
      (execLoop att true (some f) k code).2 = k + 1 ∧
      ∃ c e, att c = Except.error e ∧
        (execLoop att true (some f) k code).1 = Except.error e := by
  intro k
  induction k with
  | zero =>
    intro code
    obtain ⟨e, he⟩ := hfail code
    exact ⟨by simp [execLoop, he], code, e, he, by simp [execLoop, he]⟩
  | succ k ih =>
    intro code
    obtain ⟨e, he⟩ := hfail code
    obtain ⟨hcount, c, e', he', hres⟩ := ih (f code e)
    refine ⟨?_, c, e', he', ?_⟩
    · simp only [execLoop, he, if_true]
      omega
    · simp only [execLoop, he, if_true]
      exact hres

/-- C1: with error correction enabled, `max_retries = k`, and a repair
callback whose snippets always fail execution or validation, the execution
stage makes exactly `k + 1` attempts (each attempt runs the pre-execution
grouping screen and the sandbox) and then re-raises the original failure
exception of an attempt unchanged, not a wrapped one. -/
theorem c1_retry_exhaustion (cfg : Config) (enforceGrouping : Bool)
    (dfs : List Df) (execC : Snippet → Except Exc ExecResult)
    (outputType : String) (f : Snippet → Exc → Snippet) (input : Snippet)
    (hucf : cfg.use_error_correction_framework = true)
    (hfail : ∀ c, ∃ e,
      attempt enforceGrouping dfs execC outputType c = Except.error e) :
    (CodeExecution.execute cfg enforceGrouping dfs execC outputType
        (some f) input).2 = cfg.max_retries + 1 ∧
    ∃ c e, attempt enforceGrouping dfs execC outputType c = Except.error e ∧
      (CodeExecution.execute cfg enforceGrouping dfs execC outputType
        (some f) input).1 = Except.error e := by
  unfold CodeExecution.execute
  rw [hucf]
  exact execLoop_exhaust _ f hfail cfg.max_retries input

/-- Witness for C1 at `max_retries = 2` and an always-failing evaluator:
three attempts, and the loop result is an attempt error. -/
theorem c1_witness :
    (CodeExecution.execute ⟨2, true⟩ false []
        (fun _ => Except.error Exc.noResultFound) "" (some fun c _ => c)
        ⟨"x", none⟩).2 = 2 + 1 ∧
    ∃ c e, attempt false [] (fun _ => Except.error Exc.noResultFound) "" c =
        Except.error e ∧
      (CodeExecution.execute ⟨2, true⟩ false []
        (fun _ => Except.error Exc.noResultFound) "" (some fun c _ => c)
        ⟨"x", none⟩).1 = Except.error e :=
  c1_retry_exhaustion ⟨2, true⟩ false []
    (fun _ => Except.error Exc.noResultFound) "" (fun c _ => c) ⟨"x", none⟩
    rfl (fun _ => ⟨Exc.noResultFound, rfl⟩)

/-- C2: if the correction framework is off, or no repair callback was
supplied, a failing first attempt means exactly one sandbox invocation and
the first failure is propagated unchanged. -/
theorem c2_single_invocation (cfg : Config) (enforceGrouping : Bool)
    (dfs : List Df) (execC : Snippet → Except Exc ExecResult)
    (outputType : String) (onRetry : Option (Snippet → Exc → Snippet))
    (input : Snippet) (e : Exc)
    (hdis : cfg.use_error_correction_framework = false ∨ onRetry = none)
    (hfail : attempt enforceGrouping dfs execC outputType input =
      Except.error e) :
    CodeExecution.execute cfg enforceGrouping dfs execC outputType onRetry
      input = (Except.error e, 1) := by
  unfold CodeExecution.execute
  cases hmr : cfg.max_retries with
  | zero => simp [execLoop, hfail]
  | succ k =>
    rcases hdis with hucf | hnone
    · simp [execLoop, hfail, hucf]
    · cases hucf : cfg.use_error_correction_framework <;>
        simp [execLoop, hfail, hnone]

/-- Witness for C2: correction disabled, `max_retries = 5`, one failing
attempt, single invocation. -/
theorem c2_witness :
    CodeExecution.execute ⟨5, false⟩ false []
      (fun _ => Except.error (Exc.generic 7)) "" none ⟨"x", none⟩ =
      (Except.error (Exc.generic 7), 1) :=
  c2_single_invocation ⟨5, false⟩ false []
    (fun _ => Except.error (Exc.generic 7)) "" none ⟨"x", none⟩
    (Exc.generic 7) (Or.inl rfl) rfl

/-- C8: a result whose value is not shape-consistent with its declared tag
makes the attempt fail with `InvalidOutputValueMismatch` naming the
observed value type and the declared tag, and — with correction enabled
and budget left — the failure is fed to the repair callback and the loop
continues instead of crashing. -/
theorem c8_mismatch_enters_retry (cfg : Config) (enforceGrouping : Bool)
    (dfs : List Df) (execC : Snippet → Except Exc ExecResult)
    (outputType : String) (f : Snippet → Exc → Snippet) (input : Snippet)
    (r : ExecResult)
    (hgate : (enforceGrouping && !strContains input.text ".groupby") = false)
    (hexec : execC input = Except.ok r)
    (hhint : outputType = "" ∨ validateHint outputType r = true)
    (hmm : validate_result r = false)
    (hucf : cfg.use_error_correction_framework = true)
    (hk : 1 ≤ cfg.max_retries) :
    attempt enforceGrouping dfs execC outputType input =
      Except.error
        (Exc.invalidOutputValueMismatch (shapeName r.value) r.type_) ∧
    CodeExecution.execute cfg enforceGrouping dfs execC outputType (some f)
        input =
      ((execLoop (attempt enforceGrouping dfs execC outputType) true (some f)
          (cfg.max_retries - 1)
          (f input (Exc.invalidOutputValueMismatch (shapeName r.value)
            r.type_))).1,
       (execLoop (attempt enforceGrouping dfs execC outputType) true (some f)
          (cfg.max_retries - 1)
          (f input (Exc.invalidOutputValueMismatch (shapeName r.value)
            r.type_))).2 + 1) := by
  have hatt : attempt enforceGrouping dfs execC outputType input =
      Except.error
        (Exc.invalidOutputValueMismatch (shapeName r.value) r.type_) := by
    unfold attempt
    rw [hgate]
    simp only [Bool.false_eq_true, if_false, hexec]
    rcases hhint with h0 | hv
    · subst h0
      simp [hmm]
    · simp [hv, hmm]
  refine ⟨hatt, ?_⟩
  unfold CodeExecution.execute
  rw [hucf]
  cases hmr : cfg.max_retries with
  | zero => omega
  | succ k =>
    simp [execLoop, hatt]

/-- Witness for C8: the spec example — a result tagged `dataframe` whose
value is the scalar `3` — enters the retry loop with one retry left. -/
theorem c8_witness :
    attempt false [] (fun _ => Except.ok ⟨"dataframe", PyShape.num 3⟩) ""
      ⟨"dfs[0]", none⟩ =
      Except.error (Exc.invalidOutputValueMismatch "int" "dataframe") ∧
    CodeExecution.execute ⟨1, true⟩ false []
        (fun _ => Except.ok ⟨"dataframe", PyShape.num 3⟩) ""
        (some fun c _ => c) ⟨"dfs[0]", none⟩ =
      ((execLoop (attempt false []
          (fun _ => Except.ok ⟨"dataframe", PyShape.num 3⟩) "") true
          (some fun c _ => c) 0
          (Exc.invalidOutputValueMismatch "int" "dataframe" |>
            (fun e => (fun c _ => c) (⟨"dfs[0]", none⟩ : Snippet) e))).1,
       (execLoop (attempt false []
          (fun _ => Except.ok ⟨"dataframe", PyShape.num 3⟩) "") true
          (some fun c _ => c) 0
          (Exc.invalidOutputValueMismatch "int" "dataframe" |>
            (fun e => (fun c _ => c) (⟨"dfs[0]", none⟩ : Snippet) e))).2 + 1) :=
  c8_mismatch_enters_retry ⟨1, true⟩ false []
    (fun _ => Except.ok ⟨"dataframe", PyShape.num 3⟩) "" (fun c _ => c)
    ⟨"dfs[0]", none⟩ ⟨"dataframe", PyShape.num 3⟩ rfl rfl (Or.inl rfl)
    (by decide) rfl (by decide)

/-! ## The security screen: claim C3 -/

/-- C3: a query containing a denylist substring, or flagged unsafe by the
supplied policy evaluator, makes the chat body raise `MaliciousQueryError`
with the pipeline — code generation and the retry-correction loop — never
invoked. -/
theorem c3_security_screen (security : Option (String → Bool))
    (pipelineRun : String → Except Exc ExecResult) (query : String)
    (h : checkMaliciousKeywordsInQuery query = true ∨
      ∃ ev, security = some ev ∧ ev query = true) :
    ∃ msg, chatGate security pipelineRun query =
      (Except.error (Exc.maliciousQuery msg), false) := by
  by_cases hk : checkMaliciousKeywordsInQuery query = true
  · exact ⟨maliciousKeywordsMsg, by simp [chatGate, hk]⟩
  · rcases h with hkw | ⟨ev, hs, hev⟩
    · exact absurd hkw hk
    · refine ⟨maliciousPolicyMsg, ?_⟩
      simp only [chatGate, Bool.not_eq_true] at hk ⊢
      rw [hk, hs]
      simp [hev]

/-- Witness for C3: the spec example query text containing `" os"` is
rejected with no pipeline run. -/
theorem c3_witness :
    ∃ msg,
      chatGate none (fun _ => Except.ok ⟨"number", PyShape.num 1⟩)
        "please import os" =
      (Except.error (Exc.maliciousQuery msg), false) :=
  c3_security_screen none (fun _ => Except.ok ⟨"number", PyShape.num 1⟩)
    "please import os" (Or.inl (by decide))

/-! ## The nearest-assignment helper: claim C4 -/

/-- C4: on `my_df = dfs[1]` (line 1) followed by a comparison on
`my_df` (line 2), the extractor attributes the predicate to `dfs[0]`,
because `_get_df_id_by_nearest_assignment` only returns its accumulated
`nearest_assignment` when it meets an assignment on a line after the
comparison, and otherwise falls off its loop returning `None` — dropping
the accumulator its own docstring documents as the return value.  The
specified attribution (most recent preceding `name = dfs[i]` wins) is
`dfs[1]`, and appending an unrelated later assignment `z = 1` makes the
very same comparison attribute to `dfs[1]`, exposing the dropped
accumulator. -/
theorem c4_nearest_assignment_dropped :
    extractComparisons c4Module =
      Except.ok [("dfs[0]", [(PyVal.s "col", ">", PyVal.i 5)])] ∧
    getDfIdByNearestAssignment 2 (moduleAssignments c4Module)
      (PyVal.s "my_df") = none ∧
    specNearestAssignment 2 (moduleAssignments c4Module)
      (PyVal.s "my_df") = some "dfs[1]" ∧
    extractComparisons c4ModuleLater =
      Except.ok [("dfs[1]", [(PyVal.s "col", ">", PyVal.i 5)])] :=
  ⟨by decide, by decide, by decide, by decide⟩

/-! ## The cache: claim C10 -/

/-- C10 counterexample: on an empty backing table, `set` followed by `get`
on the identical key does not return the stored snippet — `set` writes
nothing. -/
theorem c10_counterexample :
    Cache.get (Cache.set [] "a~b~c" "result = 1") "a~b~c" ≠
      some "result = 1" := by
  decide

/-- C10 (amended): `set` leaves the backing store unchanged (its body is
`pass`), so `get` after `set` returns exactly what `get` returned before;
`get` looks the key's three `~`-separated components up in the
`promptmaster` table (marker-stripped question, `bad_code` null) and
returns the first match's stored snippet, absent when no row matches. -/
theorem c10_cache_read_only (tbl : List PgRow) (k v key p0 p1 p2 : String)
    (rest : List String)
    (hk : splitTilde key = p0 :: p1 :: p2 :: rest) :
    Cache.set tbl k v = tbl ∧
    Cache.get (Cache.set tbl k v) key = Cache.get tbl key ∧
    Cache.get tbl key =
      (tbl.find? (rowMatch p0 p1 (strReplace p2 queryMarker ""))).map
        (fun r => r.code_executed) := by
  refine ⟨rfl, rfl, ?_⟩
  unfold Cache.get
  rw [hk]

/-- Witness for C10 on a one-row table: `set` is a no-op and `get` returns
the row matching the key components. -/
theorem c10_witness :
    Cache.set [(⟨"a", "b", "c", "snippet", true⟩ : PgRow)] "x~y~z" "v" =
      [(⟨"a", "b", "c", "snippet", true⟩ : PgRow)] ∧
    Cache.get (Cache.set [(⟨"a", "b", "c", "snippet", true⟩ : PgRow)]
        "x~y~z" "v") "a~b~c" =
      Cache.get [(⟨"a", "b", "c", "snippet", true⟩ : PgRow)] "a~b~c" ∧
    Cache.get [(⟨"a", "b", "c", "snippet", true⟩ : PgRow)] "a~b~c" =
      ([(⟨"a", "b", "c", "snippet", true⟩ : PgRow)].find?
        (rowMatch "a" "b" (strReplace "c" queryMarker ""))).map
        (fun r => r.code_executed) :=
  c10_cache_read_only [(⟨"a", "b", "c", "snippet", true⟩ : PgRow)]
    "x~y~z" "v" "a~b~c" "a" "b" "c" [] (by decide)

/-! ## Dataset scoping and materialization: claims C6, C7, C9 -/

theorem requiredGo_length (code : String) :
    ∀ (dfs : List Df) (j : Nat),
      (requiredGo code j dfs).length = dfs.length := by
  intro dfs
  induction dfs with
  | nil => intro j; rfl
  | cons df rest ih => intro j; simp [requiredGo, ih]

theorem requiredGo_get (code : String) :
    ∀ (dfs : List Df) (j i : Nat), i < dfs.length →
      (requiredGo code j dfs).get? i =
        some (if strContains code ("dfs[" ++ toString (j + i) ++ "]") = true
              then dfs.get? i else none) := by
  intro dfs
  induction dfs with
  | nil => intro j i h; simp at h
  | cons df rest ih =>
    intro j i h
    cases i with
    | zero => simp [requiredGo]
    | succ i' =>
      have harr : j + (i' + 1) = (j + 1) + i' := by omega
      rw [harr]
      simpa [requiredGo] using ih (j + 1) i' (by simpa using h)

/-- Indices recorded as materialized are at least the starting index. -/
theorem getOriginalsGo_log_ge (current : Option PyModule) :
    ∀ (l : List (Option Df)) (idx j : Nat),
      j ∈ (getOriginalsGo current idx l).2 → idx ≤ j := by
  intro l
  induction l with
  | nil => intro idx j h; simp [getOriginalsGo] at h
  | cons o rest ih =>
    intro idx j h
    cases o with
    | none =>
      cases hres : getOriginalsGo current (idx + 1) rest with
      | mk res log =>
        have hrec : j ∈ log → idx + 1 ≤ j := by
          intro hj
          have := ih (idx + 1) j (by rw [hres]; exact hj)
          omega
        cases res with
        | error e =>
          simp only [getOriginalsGo, hres] at h
          have := hrec h; omega
        | ok mats =>
          simp only [getOriginalsGo, hres] at h
          have := hrec h; omega
    | some df =>
      cases hext : extractFilters current with
      | error e =>
        simp only [getOriginalsGo, hext] at h
        simp at h
      | ok fs =>
        cases hres : getOriginalsGo current (idx + 1) rest with
        | mk res log =>
          have hrec : j ∈ log → idx + 1 ≤ j := by
            intro hj
            have := ih (idx + 1) j (by rw [hres]; exact hj)
            omega
          cases res with
          | error e =>
            simp only [getOriginalsGo, hext, hres, List.mem_cons] at h
            rcases h with h | h
            · omega
            · have := hrec h; omega
          | ok mats =>
            simp only [getOriginalsGo, hext, hres, List.mem_cons] at h
            rcases h with h | h
            · omega
            · have := hrec h; omega

/-- A slot holding the null placeholder is never materialized: its index
is absent from the execution log and its output entry stays null. -/
theorem getOriginalsGo_none_slot (current : Option PyModule) :
    ∀ (l : List (Option Df)) (idx i : Nat), l.get? i = some none →
      (idx + i) ∉ (getOriginalsGo current idx l).2 ∧
      ∀ mats, (getOriginalsGo current idx l).1 = Except.ok mats →
        mats.get? i = some none := by
  intro l
  induction l with
  | nil => intro idx i h; simp at h
  | cons o rest ih =>
    intro idx i h
    cases o with
    | none =>
      cases hres : getOriginalsGo current (idx + 1) rest with
      | mk res log =>
        cases i with
        | zero =>
          constructor
          · intro hmem
            simp only [getOriginalsGo, hres] at hmem
            cases res with
            | error e =>
              have := getOriginalsGo_log_ge current rest (idx + 1) (idx + 0)
                (by rw [hres]; exact hmem)
              omega
            | ok mats =>
              have := getOriginalsGo_log_ge current rest (idx + 1) (idx + 0)
                (by rw [hres]; exact hmem)
              omega
          · intro mats hmats
            cases res with
            | error e =>
              simp only [getOriginalsGo, hres] at hmats
              exact Except.noConfusion hmats
            | ok mats' =>
              simp only [getOriginalsGo, hres, Except.ok.injEq] at hmats
              subst hmats
              rfl
        | succ i' =>
          have hr : rest.get? i' = some none := by simpa using h
          obtain ⟨hmem', hmats'⟩ := ih (idx + 1) i' hr
          have harr : idx + (i' + 1) = (idx + 1) + i' := by omega
          constructor
          · intro hmem
            rw [harr] at hmem
            simp only [getOriginalsGo, hres] at hmem
            cases res with
            | error e => exact hmem' (by rw [hres]; exact hmem)
            | ok mats => exact hmem' (by rw [hres]; exact hmem)
          · intro mats hmats
            cases res with
            | error e =>
              simp only [getOriginalsGo, hres] at hmats
              exact Except.noConfusion hmats
            | ok mats'' =>
              simp only [getOriginalsGo, hres, Except.ok.injEq] at hmats
              subst hmats
              simpa using hmats' mats'' (by rw [hres])
    | some df =>
      cases i with
      | zero => simp at h
      | succ i' =>
        have hr : rest.get? i' = some none := by simpa using h
        obtain ⟨hmem', hmats'⟩ := ih (idx + 1) i' hr
        have harr : idx + (i' + 1) = (idx + 1) + i' := by omega
        cases hext : extractFilters current with
        | error e =>
          constructor
          · intro hmem
            simp only [getOriginalsGo, hext] at hmem
            simp at hmem
          · intro mats hmats
            simp only [getOriginalsGo, hext] at hmats
            exact Except.noConfusion hmats
        | ok fs =>
          cases hres : getOriginalsGo current (idx + 1) rest with
          | mk res log =>
            constructor
            · intro hmem
              rw [harr] at hmem
              cases res with
              | error e =>
                simp only [getOriginalsGo, hext, hres, List.mem_cons] at hmem
                rcases hmem with hmem | hmem
                · omega
                · exact hmem' (by rw [hres]; exact hmem)
              | ok mats =>
                simp only [getOriginalsGo, hext, hres, List.mem_cons] at hmem
                rcases hmem with hmem | hmem
                · omega
                · exact hmem' (by rw [hres]; exact hmem)
            · intro mats hmats
              cases res with
              | error e =>
                simp only [getOriginalsGo, hext, hres] at hmats
                exact Except.noConfusion hmats
              | ok mats'' =>
                simp only [getOriginalsGo, hext, hres,
                  Except.ok.injEq] at hmats
                subst hmats
                simpa using hmats' mats'' (by rw [hres])

/-- When the filter extraction fails and some slot is non-null, the whole
materialization aborts with that error, with nothing materialized. -/
theorem getOriginalsGo_error (current : Option PyModule) (e : Exc)
    (hext : extractFilters current = Except.error e) :
    ∀ (l : List (Option Df)) (idx : Nat),
      (∃ i df, l.get? i = some (some df)) →
      getOriginalsGo current idx l = (Except.error e, []) := by
  intro l
  induction l with
  | nil =>
    intro idx h
    obtain ⟨i, df, h⟩ := h
    simp at h
  | cons o rest ih =>
    intro idx h
    obtain ⟨i, df, h⟩ := h
    cases o with
    | some df' => simp [getOriginalsGo, hext]
    | none =>
      cases i with
      | zero => simp at h
      | succ i' =>
        have := ih (idx + 1) ⟨i', df, by simpa using h⟩
        simp [getOriginalsGo, this]

/-- Every materialized slot carries exactly the filters looked up, for its
own index, in the mapping extracted from `current`. -/
theorem getOriginalsGo_mats (current : Option PyModule) :
    ∀ (l : List (Option Df)) (idx : Nat) (mats : List (Option MatDf))
      (log : List Nat),
      getOriginalsGo current idx l = (Except.ok mats, log) →
      ∀ i df fl, mats.get? i = some (some (df, fl)) →
        ∃ fs, extractFilters current = Except.ok fs ∧
          fl = lookupFilters fs ("dfs[" ++ toString (idx + i) ++ "]") := by
  intro l
  induction l with
  | nil =>
    intro idx mats log hrun i df fl hi
    simp only [getOriginalsGo, Prod.mk.injEq, Except.ok.injEq] at hrun
    obtain ⟨h1, _⟩ := hrun
    subst h1
    simp at hi
  | cons o rest ih =>
    intro idx mats log hrun i df fl hi
    cases o with
    | none =>
      cases hres : getOriginalsGo current (idx + 1) rest with
      | mk res log' =>
        cases res with
        | error e => simp [getOriginalsGo, hres] at hrun
        | ok mats' =>
          simp only [getOriginalsGo, hres, Prod.mk.injEq,
            Except.ok.injEq] at hrun
          obtain ⟨h1, _⟩ := hrun
          subst h1
          cases i with
          | zero => simp at hi
          | succ i' =>
            have harr : idx + (i' + 1) = (idx + 1) + i' := by omega
            rw [harr]
            exact ih (idx + 1) mats' log' (by rw [hres]) i' df fl
              (by simpa using hi)
    | some df' =>
      cases hext : extractFilters current with
      | error e => simp [getOriginalsGo, hext] at hrun
      | ok fs =>
        cases hres : getOriginalsGo current (idx + 1) rest with
        | mk res log' =>
          cases res with
          | error e => simp [getOriginalsGo, hext, hres] at hrun
          | ok mats' =>
            simp only [getOriginalsGo, hext, hres, Prod.mk.injEq,
              Except.ok.injEq] at hrun
            obtain ⟨h1, _⟩ := hrun
            subst h1
            cases i with
            | zero =>
              refine ⟨fs, rfl, ?_⟩
              simp only [List.get?_cons_zero, Option.some.injEq] at hi
              injection hi with hdf hfl
              rw [← hfl]
              simp
            | succ i' =>
              have harr : idx + (i' + 1) = (idx + 1) + i' := by omega
              rw [harr, ← hext]
              exact ih (idx + 1) mats' log' (by rw [hres]) i' df fl
                (by simpa using hi)

/-- C6: the required-dataset computation returns the full dataset list on
the all-datasets idiom; otherwise it returns a same-length list whose slot
`i` holds the handle exactly when the token `dfs[i]` occurs in the snippet
text, null otherwise — and null slots are never materialized (their index
is absent from the execution log and their output entry stays null). -/
theorem c6_required_dfs_scoping (code : String) (dfs : List Df)
    (current : Option PyModule) :
    (hasAllDfsIdiom code = true → requiredDfs code dfs = dfs.map some) ∧
    (hasAllDfsIdiom code = false →
      (requiredDfs code dfs).length = dfs.length ∧
      ∀ i, i < dfs.length →
        (requiredDfs code dfs).get? i =
          some (if strContains code ("dfs[" ++ toString i ++ "]") = true
                then dfs.get? i else none)) ∧
    (∀ i, (requiredDfs code dfs).get? i = some none →
      i ∉ (getOriginals current (requiredDfs code dfs)).2 ∧
      ∀ mats,
        (getOriginals current (requiredDfs code dfs)).1 = Except.ok mats →
        mats.get? i = some none) := by
  refine ⟨?_, ?_, ?_⟩
  · intro h
    simp [requiredDfs, h]
  · intro h
    cases dfs with
    | nil => simp [requiredDfs, h, requiredGo]
    | cons df rest =>
      have hne : (requiredGo code 0 (df :: rest)).isEmpty = false := by
        simp [requiredGo]
      constructor
      · simp only [requiredDfs, h, Bool.false_eq_true, if_false, hne]
        exact requiredGo_length code (df :: rest) 0
      · intro i hi
        simp only [requiredDfs, h, Bool.false_eq_true, if_false, hne]
        simpa using requiredGo_get code (df :: rest) 0 i hi
  · intro i hslot
    constructor
    · intro hmem
      exact (getOriginalsGo_none_slot current (requiredDfs code dfs) 0 i
        hslot).1 (by simpa using hmem)
    · intro mats hmats
      exact (getOriginalsGo_none_slot current (requiredDfs code dfs) 0 i
        hslot).2 mats hmats

/-- Witness for C6: with snippet text `dfs[1]` over two datasets, slot 0 is
null and slot 1 keeps its handle; the null slot is not materialized. -/
theorem c6_witness :
    requiredDfs "dfs[1]" [dfLoans, dfPayments] = [none, some dfPayments] ∧
    0 ∉ (getOriginals (some []) (requiredDfs "dfs[1]"
      [dfLoans, dfPayments])).2 := by
  have h := c6_required_dfs_scoping "dfs[1]" [dfLoans, dfPayments] (some [])
  exact ⟨by decide, (h.2.2 0 (by decide)).1⟩

/-- C7: a snippet whose text does not parse makes the execution stage fail
with the parse error (`SyntaxError`, the spec's `MalformedSnippetError`):
`_extract_filters` re-raises it rather than swallowing it, and the
materialization aborts with that error before any dataset slot has been
materialized (empty execution log). -/
theorem c7_parse_failure_before_materialization (s : Snippet)
    (dfs : List Df) (hparse : s.tree = none)
    (href : ∃ i df, (requiredDfs s.text dfs).get? i = some (some df)) :
    extractFilters s.tree = Except.error Exc.syntaxError ∧
    executeCodeEnv s dfs s = (Except.error Exc.syntaxError, []) := by
  have hext : extractFilters s.tree = Except.error Exc.syntaxError := by
    rw [hparse]; rfl
  exact ⟨hext,
    getOriginalsGo_error s.tree Exc.syntaxError hext
      (requiredDfs s.text dfs) 0 href⟩

/-- Witness for C7: the unparseable snippet `dfs[0] >` over one dataset. -/
theorem c7_witness :
    extractFilters c7Snippet.tree = Except.error Exc.syntaxError ∧
    executeCodeEnv c7Snippet [dfLoans] c7Snippet =
      (Except.error Exc.syntaxError, []) :=
  c7_parse_failure_before_materialization c7Snippet [dfLoans] rfl
    ⟨0, dfLoans, by decide⟩

/-- C9 counterexample: in a retry attempt the snippet being executed is
the corrected one (`c9SnippetRetry`) while `_current_code_executed` still
holds the original (`c9SnippetCurrent`); the filter materialized for slot
0 is the one extracted from the CURRENT snippet, which differs from the
filters extracted from the snippet actually about to run — refuting the
claim that every attempt materializes with predicates extracted from the
very snippet it executes. -/
theorem c9_counterexample :
    (executeCodeEnv c9SnippetCurrent [dfLoans] c9SnippetRetry).1 =
      Except.ok [some (dfLoans, [(PyVal.i 0, ">", PyVal.i 2)])] ∧
    extractFilters c9SnippetRetry.tree =
      Except.ok [("dfs[0]", [(PyVal.i 0, "<", PyVal.i 9)])] ∧
    ([(PyVal.i 0, ">", PyVal.i 2)] : List Pred) ≠
      [(PyVal.i 0, "<", PyVal.i 9)] :=
  ⟨by decide, by decide, by decide⟩

/-- C9 (amended): on every attempt the filters applied to each
materialized slot are the ones extracted from the stage's
`_current_code_executed` snippet, recorded at stage entry — not from the
attempt's own (possibly corrected) snippet — and the evaluator receives
the fully materialized dataset list, so materialization completes before
evaluation begins. -/
theorem c9_filters_from_current_snippet (current : Snippet) (dfs : List Df)
    (evalS : String → List (Option MatDf) → Except Exc ExecResult)
    (code : Snippet) (mats : List (Option MatDf)) (log : List Nat)
    (henv : executeCodeEnv current dfs code = (Except.ok mats, log)) :
    (∀ i df fl, mats.get? i = some (some (df, fl)) →
      ∃ fs, extractFilters current.tree = Except.ok fs ∧
        fl = lookupFilters fs ("dfs[" ++ toString i ++ "]")) ∧
    executeCode current dfs evalS code = (evalS code.text mats, log) := by
  constructor
  · intro i df fl hi
    have h := getOriginalsGo_mats current.tree
      (requiredDfs code.text dfs) 0 mats log henv i df fl hi
    simpa using h
  · unfold executeCode
    rw [henv]

/-- Witness for C9 at the concrete snippets: slot 0's filters come from
the current snippet, and the evaluator runs on the completed list. -/
theorem c9_witness :
    (∃ fs, extractFilters c9SnippetCurrent.tree = Except.ok fs ∧
      [(PyVal.i 0, ">", PyVal.i 2)] =
        lookupFilters fs ("dfs[" ++ toString 0 ++ "]")) ∧
    executeCode c9SnippetCurrent [dfLoans] evalNum c9SnippetRetry =
      (evalNum c9SnippetRetry.text c9Mats, [0]) := by
  have h := c9_filters_from_current_snippet c9SnippetCurrent [dfLoans]
    evalNum c9SnippetRetry c9Mats [0] (by decide)
  exact ⟨h.1 0 dfLoans [(PyVal.i 0, ">", PyVal.i 2)] (by decide), h.2⟩

/-! ## The predicate extractor on single-slot snippets: claim C5 -/

theorem lSubtree_append (a b : List PyNode) :
    lSubtree (a ++ b) = lSubtree a + lSubtree b := by
  induction a with
  | nil => simp only [List.nil_append, lSubtree]; omega
  | cons n q ih =>
    simp only [List.cons_append, lSubtree, List.append_eq, ih]; omega

theorem lSubtree_map_expr (l : List PyExpr) :
    lSubtree (l.map PyNode.expr) = exprListPairCount l := by
  induction l with
  | nil => rfl
  | cons e es ih =>
    simp only [List.map_cons, lSubtree, subtreePairs, exprListPairCount, ih]

theorem lSubtree_map_stmt (l : List PyStmt) :
    lSubtree (l.map PyNode.stmt) = stmtListPairCount l := by
  induction l with
  | nil => rfl
  | cons s ss ih =>
    simp only [List.map_cons, lSubtree, subtreePairs, stmtListPairCount, ih]

/-- A subtree's pair count is the node's own pairs plus its children's
subtrees. -/
theorem subtreePairs_eq (n : PyNode) :
    subtreePairs n = nodeSelfPairs n + lSubtree (nchildren n) := by
  cases n with
  | module body =>
    simp only [subtreePairs, nodeSelfPairs, nchildren, lSubtree_map_stmt]
    omega
  | stmt s =>
    cases s with
    | assign ln targets value =>
      simp only [subtreePairs, stmtPairCount, nodeSelfPairs, nchildren,
        lSubtree_append, lSubtree_map_expr, lSubtree]
      omega
    | exprStmt ln value =>
      simp only [subtreePairs, stmtPairCount, nodeSelfPairs, nchildren,
        lSubtree]
      omega
  | expr e =>
    cases e with
    | name _ =>
      simp only [subtreePairs, exprPairCount, nodeSelfPairs, nchildren,
        lSubtree]
    | pconst _ =>
      simp only [subtreePairs, exprPairCount, nodeSelfPairs, nchildren,
        lSubtree]
    | subscript v sl =>
      simp only [subtreePairs, exprPairCount, nodeSelfPairs, nchildren,
        lSubtree]
      omega
    | callAttr f args =>
      simp only [subtreePairs, exprPairCount, nodeSelfPairs, nchildren,
        lSubtree_map_expr]
      omega
    | compare ln l ops comps =>
      simp only [subtreePairs, exprPairCount, nodeSelfPairs, nchildren,
        lSubtree, lSubtree_map_expr]
      omega

/-- The walk visits every comparison of the tree exactly once: summing a
node's own pairs over the traversal equals summing whole subtrees over the
initial queue. -/
theorem lSelf_walkFuel :
    ∀ (fuel : Nat) (q : List PyNode), lsize q ≤ fuel →
      lSelf (walkFuel fuel q) = lSubtree q := by
  intro fuel
  induction fuel with
  | zero =>
    intro q h
    cases q with
    | nil => rfl
    | cons n q' =>
      exfalso
      have := nsize_pos n
      simp only [lsize] at h
      omega
  | succ f ih =>
    intro q h
    cases q with
    | nil => rfl
    | cons n q' =>
      have hc := nchildren_lsize n
      have hap := lsize_append q' (nchildren n)
      simp only [lsize] at h
      have hrec := ih (q' ++ nchildren n) (by omega)
      simp only [walkFuel, lSelf, hrec, lSubtree_append]
      have hn := subtreePairs_eq n
      simp only [lSubtree]
      omega

theorem appendPred_same (s : String) (ps : List Pred) (p : Pred) :
    appendPred [(s, ps)] s p = [(s, ps ++ [p])] := by
  simp [appendPred]

theorem addPairs_single (s : String) (leftStr : PyVal) :
    ∀ (pairs : List (CmpOp × PyExpr)) (ps : List Pred),
      (∀ pr ∈ pairs, tokenize pr.2 ≠ []) →
      addPairs s leftStr pairs [(s, ps)] =
        Except.ok [(s, ps ++ pairPreds leftStr pairs)] := by
  intro pairs
  induction pairs with
  | nil => intro ps _; simp [addPairs, pairPreds]
  | cons pr rest ih =>
    intro ps h
    obtain ⟨op, right⟩ := pr
    have hne := h (op, right) (List.mem_cons_self _ _)
    cases htoks : tokenize right with
    | nil => exact absurd htoks hne
    | cons t ts =>
      simp only [addPairs, htoks, appendPred_same]
      rw [ih (ps ++ [(leftStr, cmpStr op, ts.getLast?.getD t)])
        (fun pr hpr => h pr (List.mem_cons_of_mem _ hpr))]
      simp [pairPreds, rightStrOf, htoks]

theorem addPairs_empty (cur : String) (leftStr : PyVal)
    (op : CmpOp) (right : PyExpr) (rest : List (CmpOp × PyExpr))
    (h : ∀ pr ∈ (op, right) :: rest, tokenize pr.2 ≠ []) :
    addPairs cur leftStr ((op, right) :: rest) [] =
      Except.ok [(cur, pairPreds leftStr ((op, right) :: rest))] := by
  have hne := h (op, right) (List.mem_cons_self _ _)
  cases htoks : tokenize right with
  | nil => exact absurd htoks hne
  | cons t ts =>
    simp only [addPairs, htoks]
    have happ : appendPred [] cur (leftStr, cmpStr op, ts.getLast?.getD t) =
        [(cur, [(leftStr, cmpStr op, ts.getLast?.getD t)])] := rfl
    rw [happ]
    rw [addPairs_single cur leftStr rest _
      (fun pr hpr => h pr (List.mem_cons_of_mem _ hpr))]
    simp [pairPreds, rightStrOf, htoks]

/-- Under the single-slot side condition, the `current_df` computed at a
handled comparison is always the slot label `s`. -/
theorem extractStep_cur (assignments : List PyStmt) (s cur : String)
    (ln : Nat) (t : PyVal)
    (hmatch : (match getDfIdByNearestAssignment ln assignments t with
       | some d => d == s
       | none => s == "dfs[0]") = true)
    (hcur : cur = s ∨ cur = "dfs[0]") :
    (getDfIdByNearestAssignment ln assignments t).getD cur = s := by
  cases hdf : getDfIdByNearestAssignment ln assignments t with
  | some d =>
    rw [hdf] at hmatch
    simp only [beq_iff_eq] at hmatch
    simpa [Option.getD] using hmatch
  | none =>
    rw [hdf] at hmatch
    simp only [beq_iff_eq] at hmatch
    rcases hcur with h | h
    · simpa [Option.getD] using h
    · simp only [Option.getD]
      rw [h, hmatch]

/-- One handled comparison, processed from a single-entry accumulator
`[(s, ps)]`, appends exactly its pair predicates at `s` and sets
`current_df` to `s`. -/
theorem extractStep_handled_single (assignments : List PyStmt) (s : String)
    (ps : List Pred) (cur : String) (ln : Nat) (lv : PyExpr) (sl : PyVal)
    (ops : List CmpOp) (comps : List PyExpr)
    (hn : compareHypB assignments s
      (PyNode.expr (.compare ln (PyExpr.subscript lv sl) ops comps)) = true)
    (hcur : cur = s ∨ cur = "dfs[0]") :
    extractStep assignments ⟨[(s, ps)], cur⟩
      (PyNode.expr (.compare ln (PyExpr.subscript lv sl) ops comps)) =
    Except.ok ⟨[(s, ps ++ predsOfNode
      (PyNode.expr (.compare ln (PyExpr.subscript lv sl) ops comps)))],
      s⟩ := by
  cases htoks : tokenize (PyExpr.subscript lv sl) with
  | nil => exact absurd htoks (tokenize_subscript_ne_nil lv sl)
  | cons t ts =>
    simp only [compareHypB, htoks, headTokD, List.headD,
      Bool.and_eq_true, List.all_eq_true] at hn
    have htoken : ∀ pr ∈ ops.zip comps, tokenize pr.2 ≠ [] := by
      intro pr hpr htk
      have h2 := hn.1 pr hpr
      rw [htk] at h2
      simp at h2
    have hcur1 := extractStep_cur assignments s cur ln t hn.2 hcur
    simp only [extractStep, htoks, hcur1,
      addPairs_single s (ts.getLast?.getD t) (ops.zip comps) ps htoken,
      predsOfNode]

/-- One handled comparison, processed from the empty accumulator, creates
the single entry at `s` (or leaves the accumulator empty when the
comparison has no pairs) and sets `current_df` to `s`. -/
theorem extractStep_handled_empty (assignments : List PyStmt) (s : String)
    (cur : String) (ln : Nat) (lv : PyExpr) (sl : PyVal)
    (ops : List CmpOp) (comps : List PyExpr)
    (hn : compareHypB assignments s
      (PyNode.expr (.compare ln (PyExpr.subscript lv sl) ops comps)) = true)
    (hcur : cur = s ∨ cur = "dfs[0]") :
    extractStep assignments ⟨[], cur⟩
      (PyNode.expr (.compare ln (PyExpr.subscript lv sl) ops comps)) =
    Except.ok ⟨(if (predsOfNode
        (PyNode.expr (.compare ln (PyExpr.subscript lv sl) ops
          comps))).isEmpty
      then []
      else [(s, predsOfNode
        (PyNode.expr (.compare ln (PyExpr.subscript lv sl) ops comps)))]),
      s⟩ := by
  cases htoks : tokenize (PyExpr.subscript lv sl) with
  | nil => exact absurd htoks (tokenize_subscript_ne_nil lv sl)
  | cons t ts =>
    simp only [compareHypB, htoks, headTokD, List.headD,
      Bool.and_eq_true, List.all_eq_true] at hn
    have htoken : ∀ pr ∈ ops.zip comps, tokenize pr.2 ≠ [] := by
      intro pr hpr htk
      have h2 := hn.1 pr hpr
      rw [htk] at h2
      simp at h2
    have hcur1 := extractStep_cur assignments s cur ln t hn.2 hcur
    cases hpairs : ops.zip comps with
    | nil =>
      simp only [extractStep, htoks, hcur1, hpairs, addPairs, predsOfNode,
        pairPreds, List.map_nil, List.isEmpty_nil, if_true]
    | cons pr rest =>
      obtain ⟨op, right⟩ := pr
      rw [show (predsOfNode (PyNode.expr
          (.compare ln (PyExpr.subscript lv sl) ops comps))) =
        pairPreds (ts.getLast?.getD t) ((op, right) :: rest) from by
          simp [predsOfNode, htoks, hpairs]]
      simp only [extractStep, htoks, hcur1, hpairs,
        addPairs_empty s (ts.getLast?.getD t) op right rest
          (hpairs ▸ htoken), pairPreds, List.map_cons, List.isEmpty_cons,
        Bool.false_eq_true, if_false]

/-- Folding the extraction over any node list satisfying the single-slot
side conditions, from a single-entry accumulator at `s`, appends exactly
the nodes' predicates in list order. -/
theorem extractFold_single (assignments : List PyStmt) (s : String) :
    ∀ (L : List PyNode) (ps : List Pred) (cur : String),
      (∀ n ∈ L, compareHypB assignments s n = true) →
      (cur = s ∨ cur = "dfs[0]") →
      ∃ cur', extractFold assignments L ⟨[(s, ps)], cur⟩ =
          Except.ok ⟨[(s, ps ++ predsFlat L)], cur'⟩ ∧
        (cur' = s ∨ cur' = "dfs[0]") := by
  intro L
  induction L with
  | nil =>
    intro ps cur _ hcur
    exact ⟨cur, by simp [extractFold, predsFlat], hcur⟩
  | cons n rest ih =>
    intro ps cur hall hcur
    have hn := hall n (List.mem_cons_self _ _)
    have hrest : ∀ m ∈ rest, compareHypB assignments s m = true :=
      fun m hm => hall m (List.mem_cons_of_mem _ hm)
    cases n with
    | module body =>
      obtain ⟨cur', h1, h2⟩ := ih ps cur hrest hcur
      exact ⟨cur', by simp only [extractFold, extractStep, predsFlat,
        predsOfNode, List.nil_append, h1], h2⟩
    | stmt t =>
      obtain ⟨cur', h1, h2⟩ := ih ps cur hrest hcur
      exact ⟨cur', by simp only [extractFold, extractStep, predsFlat,
        predsOfNode, List.nil_append, h1], h2⟩
    | expr e =>
      cases e with
      | name id =>
        obtain ⟨cur', h1, h2⟩ := ih ps cur hrest hcur
        exact ⟨cur', by simp only [extractFold, extractStep, predsFlat,
          predsOfNode, List.nil_append, h1], h2⟩
      | pconst v =>
        obtain ⟨cur', h1, h2⟩ := ih ps cur hrest hcur
        exact ⟨cur', by simp only [extractFold, extractStep, predsFlat,
          predsOfNode, List.nil_append, h1], h2⟩
      | subscript v sl =>
        obtain ⟨cur', h1, h2⟩ := ih ps cur hrest hcur
        exact ⟨cur', by simp only [extractFold, extractStep, predsFlat,
          predsOfNode, List.nil_append, h1], h2⟩
      | callAttr f args =>
        obtain ⟨cur', h1, h2⟩ := ih ps cur hrest hcur
        exact ⟨cur', by simp only [extractFold, extractStep, predsFlat,
          predsOfNode, List.nil_append, h1], h2⟩
      | compare ln left ops comps =>
        cases left with
        | name id => simp [compareHypB] at hn
        | pconst v => simp [compareHypB] at hn
        | callAttr f args => simp [compareHypB] at hn
        | compare a b c d => simp [compareHypB] at hn
        | subscript lv sl =>
          have hstep := extractStep_handled_single assignments s ps cur
            ln lv sl ops comps hn hcur
          obtain ⟨cur', h1, h2⟩ := ih
            (ps ++ predsOfNode (PyNode.expr
              (.compare ln (PyExpr.subscript lv sl) ops comps)))
            s hrest (Or.inl rfl)
          refine ⟨cur', ?_, h2⟩
          simp only [extractFold, hstep, h1, predsFlat, List.append_assoc]

/-- Folding the extraction from the initial state (empty mapping,
`current_df = "dfs[0]"`): the result is the single entry at `s` holding
the nodes' predicates in list order (empty mapping when there are none). -/
theorem extractFold_empty (assignments : List PyStmt) (s : String) :
    ∀ (L : List PyNode) (cur : String),
      (∀ n ∈ L, compareHypB assignments s n = true) →
      (cur = s ∨ cur = "dfs[0]") →
      ∃ cur', extractFold assignments L ⟨[], cur⟩ =
          Except.ok ⟨(if (predsFlat L).isEmpty then []
                      else [(s, predsFlat L)]), cur'⟩ ∧
        (cur' = s ∨ cur' = "dfs[0]") := by
  intro L
  induction L with
  | nil =>
    intro cur _ hcur
    exact ⟨cur, by simp [extractFold, predsFlat], hcur⟩
  | cons n rest ih =>
    intro cur hall hcur
    have hn := hall n (List.mem_cons_self _ _)
    have hrest : ∀ m ∈ rest, compareHypB assignments s m = true :=
      fun m hm => hall m (List.mem_cons_of_mem _ hm)
    cases n with
    | module body =>
      obtain ⟨cur', h1, h2⟩ := ih cur hrest hcur
      exact ⟨cur', by simp only [extractFold, extractStep, predsFlat,
        predsOfNode, List.nil_append, h1], h2⟩
    | stmt t =>
      obtain ⟨cur', h1, h2⟩ := ih cur hrest hcur
      exact ⟨cur', by simp only [extractFold, extractStep, predsFlat,
        predsOfNode, List.nil_append, h1], h2⟩
    | expr e =>
      cases e with
      | name id =>
        obtain ⟨cur', h1, h2⟩ := ih cur hrest hcur
        exact ⟨cur', by simp only [extractFold, extractStep, predsFlat,
          predsOfNode, List.nil_append, h1], h2⟩
      | pconst v =>
        obtain ⟨cur', h1, h2⟩ := ih cur hrest hcur
        exact ⟨cur', by simp only [extractFold, extractStep, predsFlat,
          predsOfNode, List.nil_append, h1], h2⟩
      | subscript v sl =>
        obtain ⟨cur', h1, h2⟩ := ih cur hrest hcur
        exact ⟨cur', by simp only [extractFold, extractStep, predsFlat,
          predsOfNode, List.nil_append, h1], h2⟩
      | callAttr f args =>
        obtain ⟨cur', h1, h2⟩ := ih cur hrest hcur
        exact ⟨cur', by simp only [extractFold, extractStep, predsFlat,
          predsOfNode, List.nil_append, h1], h2⟩
      | compare ln left ops comps =>
        cases left with
        | name id => simp [compareHypB] at hn
        | pconst v => simp [compareHypB] at hn
        | callAttr f args => simp [compareHypB] at hn
        | compare a b c d => simp [compareHypB] at hn
        | subscript lv sl =>
          have hstep := extractStep_handled_empty assignments s cur
            ln lv sl ops comps hn hcur
          cases hpn : (predsOfNode (PyNode.expr
              (.compare ln (PyExpr.subscript lv sl) ops comps))).isEmpty with
          | true =>
            have hemptypn : predsOfNode (PyNode.expr
                (.compare ln (PyExpr.subscript lv sl) ops comps)) = [] := by
              cases hp : predsOfNode (PyNode.expr
                  (.compare ln (PyExpr.subscript lv sl) ops comps)) with
              | nil => rfl
              | cons a l => rw [hp] at hpn; simp at hpn
            rw [hpn] at hstep
            obtain ⟨cur', h1, h2⟩ := ih s hrest (Or.inl rfl)
            refine ⟨cur', ?_, h2⟩
            simp only [extractFold, hstep, if_true, h1, predsFlat,
              hemptypn, List.nil_append]
          | false =>
            rw [hpn] at hstep
            obtain ⟨cur', h1, h2⟩ := extractFold_single assignments s rest
              (predsOfNode (PyNode.expr
                (.compare ln (PyExpr.subscript lv sl) ops comps)))
              s hrest (Or.inl rfl)
            refine ⟨cur', ?_, h2⟩
            have hne : (predsFlat (PyNode.expr
                (.compare ln (PyExpr.subscript lv sl) ops comps) :: rest)
                ).isEmpty = false := by
              simp only [predsFlat]
              cases hp : predsOfNode (PyNode.expr
                  (.compare ln (PyExpr.subscript lv sl) ops comps)) with
              | nil => rw [hp] at hpn; simp at hpn
              | cons a l => simp
            simp only [predsFlat] at hne
            simp only [extractFold, hstep, Bool.false_eq_true, if_false,
              h1, predsFlat, hne]

theorem predsOfNode_length (assignments : List PyStmt) (s : String)
    (n : PyNode) (hn : compareHypB assignments s n = true) :
    (predsOfNode n).length = nodeSelfPairs n := by
  cases n with
  | module body => rfl
  | stmt t => rfl
  | expr e =>
    cases e with
    | name _ => rfl
    | pconst _ => rfl
    | subscript _ _ => rfl
    | callAttr _ _ => rfl
    | compare ln left ops comps =>
      cases left with
      | name _ => simp [compareHypB] at hn
      | pconst _ => simp [compareHypB] at hn
      | callAttr _ _ => simp [compareHypB] at hn
      | compare _ _ _ _ => simp [compareHypB] at hn
      | subscript lv sl =>
        cases htoks : tokenize (PyExpr.subscript lv sl) with
        | nil => exact absurd htoks (tokenize_subscript_ne_nil lv sl)
        | cons t ts =>
          simp only [predsOfNode, htoks, pairPreds, List.length_map,
            nodeSelfPairs]

theorem predsFlat_length (assignments : List PyStmt) (s : String) :
    ∀ L, (∀ n ∈ L, compareHypB assignments s n = true) →
      (predsFlat L).length = lSelf L := by
  intro L
  induction L with
  | nil => intro _; rfl
  | cons n rest ih =>
    intro h
    simp only [predsFlat, List.length_append, lSelf,
      predsOfNode_length assignments s n (h n (List.mem_cons_self _ _)),
      ih (fun m hm => h m (List.mem_cons_of_mem _ hm))]

/-- C5 (amended): on a parseable snippet all of whose comparisons have a
subscript left side, attribute to the single slot `s`, and tokenize
cleanly, the extractor returns exactly one entry, at `s`, whose list holds
one predicate per `(operator, right-operand)` pair — `N` of them, counted
on the tree — in the order the breadth-first tree walk encounters the
comparisons. -/
theorem c5_single_slot_extraction (m : PyModule) (s : String)
    (hall : ∀ n ∈ walkNodes m, compareHypB (moduleAssignments m) s n = true)
    (hN : 1 ≤ modulePairCount m) :
    ∃ preds, extractComparisons m = Except.ok [(s, preds)] ∧
      preds = predsFlat (walkNodes m) ∧
      preds.length = modulePairCount m := by
  have hlen : (predsFlat (walkNodes m)).length = modulePairCount m := by
    rw [predsFlat_length (moduleAssignments m) s (walkNodes m) hall]
    have hwalk := lSelf_walkFuel (lsize [PyNode.module m])
      [PyNode.module m] (Nat.le_refl _)
    unfold walkNodes
    rw [hwalk]
    simp [lSubtree, subtreePairs, modulePairCount]
  have hne : (predsFlat (walkNodes m)).isEmpty = false := by
    cases hp : predsFlat (walkNodes m) with
    | nil => rw [hp] at hlen; simp at hlen; omega
    | cons a l => rfl
  obtain ⟨cur', hfold, _⟩ := extractFold_empty (moduleAssignments m) s
    (walkNodes m) "dfs[0]" hall (Or.inr rfl)
  refine ⟨predsFlat (walkNodes m), ?_, rfl, hlen⟩
  unfold extractComparisons
  rw [hfold]
  simp [hne]

/-- C5 counterexample: in `c5Module` both comparisons attribute to slot
`dfs[0]` and there are two pairs, but the breadth-first walk reaches the
line-2 comparison (nested one level deep) before the line-1 comparison
(nested inside a call argument, one level deeper), so the single entry
lists the line-2 predicate first — NOT source order. -/
theorem c5_counterexample :
    extractComparisons c5Module =
      Except.ok [("dfs[0]", [(PyVal.i 0, "<", PyVal.i 2),
                             (PyVal.i 0, ">", PyVal.i 1)])] ∧
    ([((PyVal.i 0 : PyVal), "<", PyVal.i 2), (PyVal.i 0, ">", PyVal.i 1)] :
        List Pred) ≠
      [(PyVal.i 0, ">", PyVal.i 1), (PyVal.i 0, "<", PyVal.i 2)] :=
  ⟨by decide, by decide⟩

/-- Witness for C5 on the one-comparison snippet `dfs[0] > 2`: one entry
at `dfs[0]`, one predicate, matching the tree pair count. -/
theorem c5_witness :
    ∃ preds, extractComparisons c5FlatModule =
        Except.ok [("dfs[0]", preds)] ∧
      preds = predsFlat (walkNodes c5FlatModule) ∧
      preds.length = modulePairCount c5FlatModule :=
  c5_single_slot_extraction c5FlatModule "dfs[0]" (by decide) (by decide)
